import Mathlib

/-
Verification of the crossterm terminal-event engine against its
natural-language specification.

The development shallowly embeds the event-decoding core:
  * the incremental escape-sequence parser (src/event/source/unix.rs, `Parser`),
  * the POSIX event-source read loop (`UnixInternalEventSource::try_read` / `wake`),
  * the Windows console-record decoder (src/event/sys/windows.rs),
  * the legacy asynchronous reader (crossterm_input/src/input/mod.rs).

Machine integers are modelled as `Nat` / `Int` with explicit `% 2 ^ w`
where a Rust cast truncates.  Fallible operations return `Except`.
I/O performed by collaborators (the tty read, the readiness multiplexer,
the terminal-size query, the console-mode query) is supplied as explicit
environment data, so every function here is pure and executable.
-/

namespace Crossterm

/-- Modelled from the spec: `KeyCode` (crate::event, not among the sources)
is a closed variant set: character, function-key index, Backspace, Enter,
Esc, Tab, BackTab, Home, End, PageUp/Down, Insert, Delete, arrows, Null.
Characters are represented by their Unicode scalar value as a `Nat`. -/
inductive KeyCode where
  | backspace | enter | left | right | up | down | home | «end»
  | pageUp | pageDown | tab | backTab | delete | insert
  | f (n : Nat) | char (c : Nat) | null | esc
deriving DecidableEq, Repr

/-- Modelled from the spec: `ModifierSet` is a bitset of Shift, Control, Alt;
combinable, order-independent, equality by bit pattern. -/
structure KeyModifiers where
  shift : Bool
  control : Bool
  alt : Bool
deriving DecidableEq, Repr

def KeyModifiers.empty : KeyModifiers := ⟨false, false, false⟩

/-- Bitwise union of two modifier sets (the `|` operator on `KeyModifiers`). -/
def KeyModifiers.or (a b : KeyModifiers) : KeyModifiers :=
  ⟨a.shift || b.shift, a.control || b.control, a.alt || b.alt⟩

/-- Modelled from the spec: `KeyEvent` is a code together with a modifier set. -/
structure KeyEvent where
  code : KeyCode
  modifiers : KeyModifiers
deriving DecidableEq, Repr

/-- Conversion `KeyCode -> KeyEvent` with no modifiers (the `From` impl). -/
def KeyEvent.plain (c : KeyCode) : KeyEvent := ⟨c, KeyModifiers.empty⟩

def KeyEvent.new (c : KeyCode) (m : KeyModifiers) : KeyEvent := ⟨c, m⟩

def KeyEvent.with_alt (c : KeyCode) : KeyEvent := ⟨c, ⟨false, false, true⟩⟩

def KeyEvent.with_control (c : KeyCode) : KeyEvent := ⟨c, ⟨false, true, false⟩⟩

inductive MouseButton where
  | left | right | middle | wheelUp | wheelDown
deriving DecidableEq, Repr

/-- Modelled from the spec: canonical `MouseEvent` — `Press(button, col, row)`,
`Release(col, row)`, `Hold(col, row)`; coordinates are 0-based cells (`u16`). -/
inductive MouseEvent where
  | press (button : MouseButton) (col row : Nat)
  | release (col row : Nat)
  | hold (col row : Nat)
deriving DecidableEq, Repr

/-- Modelled from the spec: the canonical event type — `Key`, `Mouse`,
`Resize(width, height)`. -/
inductive Event where
  | key (k : KeyEvent)
  | mouse (m : MouseEvent)
  | resize (width height : Nat)
deriving DecidableEq, Repr

/-- Modelled from the spec: `InternalEvent` is the canonical events plus
internal-only signals such as the cursor-position report. -/
inductive InternalEvent where
  | event (e : Event)
  | cursorPosition (col row : Nat)
deriving DecidableEq, Repr

/-! ## Incremental parser (src/event/source/unix.rs, `Parser`) -/

/-- Result of one `parse_event` invocation: `Ok(Some(event))`,
`Ok(None)` (need more bytes), or `Err` (invalid sequence). -/
inductive ParseResult where
  | okSome (ie : InternalEvent)
  | okNone
  | err
deriving DecidableEq, Repr

/-- Type of the byte parser `parse_event(buffer, input_available)`.
The function itself lives in src/event/sys/unix.rs, which is not among
the sources; the incremental parser is parametric in it, exactly as
`Parser::advance` only calls it through its interface. -/
abbrev ByteParse := List Nat → Bool → ParseResult

/-- State of `Parser`: the pending-byte buffer and the FIFO of
decoded-but-unconsumed internal events (front = oldest). -/
structure Parser where
  buffer : List Nat
  internal_events : List InternalEvent
deriving DecidableEq, Repr

def Parser.default : Parser := ⟨[], []⟩

/-- Body of the `for` loop of `Parser::advance` for a single byte: push the
byte onto the pending buffer, run `parse_event` on the accumulated buffer,
then either emit an event and clear the buffer (`Ok(Some)`), keep the buffer
(`Ok(None)`), or clear the buffer and keep going (`Err`). -/
def Parser.advanceByte (p : ByteParse) (s : Parser) (byte : Nat) (more : Bool) : Parser :=
  let buf := s.buffer ++ [byte]
  match p buf more with
  | .okSome ie => { buffer := [], internal_events := s.internal_events ++ [ie] }
  | .okNone => { s with buffer := buf }
  | .err => { s with buffer := [] }

/-- The `for (idx, byte) in buffer.iter().enumerate()` loop of
`Parser::advance`, starting at index `idx`; the per-byte flag is
`idx + 1 < buffer.len() || more`. -/
def Parser.advanceFrom (p : ByteParse) (s : Parser) (bytes : List Nat) (more : Bool)
    (idx : Nat) : Parser :=
  if h : idx < bytes.length then
    Parser.advanceFrom p
      (Parser.advanceByte p s (bytes.get ⟨idx, h⟩) (decide (idx + 1 < bytes.length) || more))
      bytes more (idx + 1)
  else s
termination_by bytes.length - idx

/-- `Parser::advance(buffer, more)`. -/
def Parser.advance (p : ByteParse) (s : Parser) (bytes : List Nat) (more : Bool) : Parser :=
  Parser.advanceFrom p s bytes more 0

/-- `<Parser as Iterator>::next`: pop the front of the event FIFO
(`VecDeque::pop_front`), returning the popped event and the new state. -/
def Parser.next (s : Parser) : Option InternalEvent × Parser :=
  match s.internal_events with
  | [] => (none, s)
  | ie :: rest => (some ie, { s with internal_events := rest })

/-! ## POSIX event source (src/event/source/unix.rs, `UnixInternalEventSource`) -/

/-- Abstract I/O error payload (the `Err` side of `crate::Result`). -/
abbrev IoErr := Nat

/-- Readiness tokens registered with the multiplexer: `TTY_TOKEN`,
`SIGNAL_TOKEN` and `WAKE_TOKEN`. -/
inductive Tok where
  | tty | signal | wake
deriving DecidableEq, Repr

/-- Environment data for one pass of the `try_read` loop: the outcome of the
blocking `Poll::poll` (the readiness token list, in reported order), the
outcome of the tty `read`, the outcome of the zero-timeout re-poll used to
compute `additional_input_available`, the number of pending SIGWINCH signals,
the outcome of the `terminal::size()` query at this moment, and whether
`PollTimeout::elapsed()` holds at the end of the pass.  `PollTimeout` itself
(event/timeout.rs) is not among the sources; following the spec, `elapsed`
stands for "the loop's elapsed time exceeds the original timeout". -/
structure Iteration where
  pollResult : Except IoErr (List Tok)
  ttyRead : Except IoErr (List Nat)
  morePoll : Except IoErr Bool
  pendingSigwinch : Nat
  termSize : Except IoErr (Nat × Nat)
  elapsed : Bool

/-- Mutable state of `UnixInternalEventSource` relevant to decoding: the
incremental parser and the contents of the self-pipe used by `wake`. -/
structure SourceState where
  parser : Parser
  wakePipe : List Nat
deriving DecidableEq, Repr

/-- Result of a `try_read` run: an early `return` with a value and the state
at that point, or the trace of loop passes was exhausted without returning. -/
inductive Outcome where
  | ret (r : Except IoErr (Option InternalEvent)) (s : SourceState)
  | noReturn (s : SourceState)
deriving Repr

/-- Result of the `for token in self.events` loop inside one pass:
either a mid-loop `return`, or fall through to the end-of-pass timeout check. -/
inductive TokStep where
  | ret (r : Except IoErr (Option InternalEvent)) (s : SourceState)
  | fallthrough (s : SourceState)
deriving Repr

/-- The `for token in self.events.iter()` loop of `try_read`.  On `TTY_TOKEN`:
read a chunk (propagating a read error), and if the count is positive, re-poll
with a zero timeout for `additional_input_available`, feed the chunk to
`Parser::advance`, and return the first parsed event if any.  On
`SIGNAL_TOKEN`: iterate the pending signals and on SIGWINCH return a `Resize`
built from a fresh `terminal::size()` query.  On `WAKE_TOKEN`: read a single
byte from the self-pipe, ignore the result, and return `Ok(None)`. -/
def processTokens (p : ByteParse) (it : Iteration) :
    SourceState → List Tok → TokStep
  | s, [] => .fallthrough s
  | s, .tty :: rest =>
    match it.ttyRead with
    | .error e => .ret (.error e) s
    | .ok bytes =>
      if bytes.length > 0 then
        match it.morePoll with
        | .error e => .ret (.error e) s
        | .ok additional_input_available =>
          match Parser.next (Parser.advance p s.parser bytes additional_input_available) with
          | (some ie, parser') => .ret (.ok (some ie)) { s with parser := parser' }
          | (none, parser') => processTokens p it { s with parser := parser' } rest
      else
        processTokens p it s rest
  | s, .signal :: rest =>
    match it.pendingSigwinch with
    | 0 => processTokens p it s rest
    | _ + 1 =>
      match it.termSize with
      | .error e => .ret (.error e) s
      | .ok (w, h) => .ret (.ok (some (.event (.resize w h)))) s
  | s, .wake :: _ =>
    .ret (.ok none) { s with wakePipe := s.wakePipe.drop 1 }

/-- The `loop` of `try_read`: poll (propagating failure), return `Ok(None)`
when the readiness set is empty (timeout), otherwise process the tokens; at
the end of a pass return `Ok(None)` if the timeout has elapsed, else loop. -/
def tryReadLoop (p : ByteParse) : SourceState → List Iteration → Outcome
  | s, [] => .noReturn s
  | s, it :: rest =>
    match it.pollResult with
    | .error e => .ret (.error e) s
    | .ok [] => .ret (.ok none) s
    | .ok toks =>
      match processTokens p it s toks with
      | .ret r s' => .ret r s'
      | .fallthrough s' =>
        if it.elapsed then .ret (.ok none) s' else tryReadLoop p s' rest

/-- `UnixInternalEventSource::try_read`: first drain an already-queued parser
event without any syscall, then enter the poll loop. -/
def tryRead (p : ByteParse) (s : SourceState) (trace : List Iteration) : Outcome :=
  match Parser.next s.parser with
  | (some ie, parser') => .ret (.ok (some ie)) { s with parser := parser' }
  | (none, _) => tryReadLoop p s trace

/-- `UnixInternalEventSource::wake`: write the single byte `0x57` to the
self-pipe (the result of the write is ignored). -/
def wake (pipe : List Nat) : List Nat := pipe ++ [0x57]

/-! ## Windows console-record decoder (src/event/sys/windows.rs) -/

/-- Reinterpretation of an `i16` value as `u16` (the Rust `as u16` cast):
reduction modulo `2 ^ 16`. -/
def u16ofInt (i : Int) : Nat := (i % 65536).toNat

/-- Test whether any of the bits of `mask` is set in the control-key state
(`ControlKeyState::has_state` of the crossterm_winapi collaborator). -/
def hasState (state mask : Nat) : Bool := state &&& mask != 0

def SHIFT_PRESSED : Nat := 0x0010
def LEFT_CTRL_PRESSED : Nat := 0x0008
def RIGHT_CTRL_PRESSED : Nat := 0x0004
def LEFT_ALT_PRESSED : Nat := 0x0002
def RIGHT_ALT_PRESSED : Nat := 0x0001

def VK_BACK : Nat := 0x08
def VK_RETURN : Nat := 0x0D
def VK_SHIFT : Nat := 0x10
def VK_CONTROL : Nat := 0x11
def VK_MENU : Nat := 0x12
def VK_ESCAPE : Nat := 0x1B
def VK_PRIOR : Nat := 0x21
def VK_NEXT : Nat := 0x22
def VK_END : Nat := 0x23
def VK_HOME : Nat := 0x24
def VK_LEFT : Nat := 0x25
def VK_UP : Nat := 0x26
def VK_RIGHT : Nat := 0x27
def VK_DOWN : Nat := 0x28
def VK_INSERT : Nat := 0x2D
def VK_DELETE : Nat := 0x2E
def VK_F1 : Nat := 0x70
def VK_F24 : Nat := 0x87

/-- Console key-event record (`crossterm_winapi::KeyEventRecord`):
`key_down`, the `u16` virtual-key code, the `u32` control-key state bitset
and the `u16` unicode character. -/
structure KeyEventRecord where
  key_down : Bool
  virtual_key_code : Nat
  control_key_state : Nat
  unicode_char : Nat
deriving DecidableEq, Repr

/-- Unicode `Alphabetic` property restricted to code points below 256,
the range reachable from `virtual_key_code as u8 as char` (Rust
`char::is_alphabetic` on a Latin-1 code point). -/
def latin1Alphabetic (c : Nat) : Bool :=
  (65 ≤ c && c ≤ 90) || (97 ≤ c && c ≤ 122) || c == 170 || c == 181 || c == 186 ||
    (192 ≤ c && c ≤ 214) || (216 ≤ c && c ≤ 246) || (248 ≤ c && c ≤ 255)

/-- `parse_key_event_record`: translate a key-down record to an optional
`KeyEvent`, mirroring the `match key_code` arm by arm. -/
def parse_key_event_record (key_event : KeyEventRecord) : Option KeyEvent :=
  let key_code := key_event.virtual_key_code
  if key_code == VK_SHIFT || key_code == VK_CONTROL || key_code == VK_MENU then
    none
  else if key_code == VK_BACK then some (KeyEvent.plain .backspace)
  else if key_code == VK_ESCAPE then some (KeyEvent.plain .esc)
  else if key_code == VK_RETURN then some (KeyEvent.plain .enter)
  else if VK_F1 ≤ key_code && key_code ≤ VK_F24 then
    some (KeyEvent.plain (.f ((key_code - 111) % 256)))
  else if key_code == VK_LEFT || key_code == VK_UP || key_code == VK_RIGHT
      || key_code == VK_DOWN then
    let key_state := key_event.control_key_state
    let control : KeyModifiers :=
      if hasState key_state (RIGHT_CTRL_PRESSED ||| LEFT_CTRL_PRESSED) then
        ⟨false, true, false⟩
      else KeyModifiers.empty
    let shift : KeyModifiers :=
      if hasState key_state SHIFT_PRESSED then ⟨true, false, false⟩ else KeyModifiers.empty
    if key_code == VK_LEFT then some (KeyEvent.new .left (control.or shift))
    else if key_code == VK_UP then some (KeyEvent.new .up (control.or shift))
    else if key_code == VK_RIGHT then some (KeyEvent.new .right (control.or shift))
    else if key_code == VK_DOWN then some (KeyEvent.new .down (control.or shift))
    else none
  else if key_code == VK_PRIOR then some (KeyEvent.plain .pageUp)
  else if key_code == VK_NEXT then some (KeyEvent.plain .pageDown)
  else if key_code == VK_HOME then some (KeyEvent.plain .home)
  else if key_code == VK_END then some (KeyEvent.plain .«end»)
  else if key_code == VK_DELETE then some (KeyEvent.plain .delete)
  else if key_code == VK_INSERT then some (KeyEvent.plain .insert)
  else
    let character_raw := key_event.unicode_char
    if character_raw < 255 then
      let character := character_raw % 256
      let key_state := key_event.control_key_state
      if hasState key_state (LEFT_ALT_PRESSED ||| RIGHT_ALT_PRESSED) then
        let command := key_event.virtual_key_code % 256
        if latin1Alphabetic command then some (KeyEvent.with_alt (.char command))
        else none
      else if hasState key_state (LEFT_CTRL_PRESSED ||| RIGHT_CTRL_PRESSED) then
        let c := character_raw % 256
        if 0x01 ≤ c && c ≤ 0x1A then
          some (KeyEvent.with_control (.char (c - 0x1 + 97)))
        else if 0x1C ≤ c && c ≤ 0x1F then
          some (KeyEvent.with_control (.char (c - 0x1C + 52)))
        else none
      else if hasState key_state SHIFT_PRESSED && character == 9 then
        some (KeyEvent.plain .backTab)
      else if character == 9 then some (KeyEvent.plain .tab)
      else some (KeyEvent.plain (.char character))
    else none

/-- `handle_key_event`: only key-down records are decoded; everything else
is `Ok(None)`.  The function can never return an error. -/
def handle_key_event (key_event : KeyEventRecord) : Except IoErr (Option Event) :=
  if key_event.key_down then
    match parse_key_event_record key_event with
    | some ev => .ok (some (.key ev))
    | none => .ok none
  else .ok none

/-- Button-state field of a console mouse record
(`crossterm_winapi::ButtonState`). -/
inductive ButtonState where
  | release
  | fromLeft1stButtonPressed
  | rightmostButtonPressed
  | fromLeft2ndButtonPressed
  | fromLeft3rdButtonPressed
  | fromLeft4thButtonPressed
  | negative
deriving DecidableEq, Repr

/-- Event-flags field of a console mouse record
(`crossterm_winapi::EventFlags`). -/
inductive EventFlags where
  | pressOrRelease
  | mouseMoved
  | doubleClick
  | mouseHwheeled
  | mouseWheeled
deriving DecidableEq, Repr

/-- Console mouse record (`crossterm_winapi::MouseEvent`): the absolute
screen-buffer position as `i16` pairs, the button state and the flags. -/
structure MouseEventRecord where
  x : Int
  y : Int
  button_state : ButtonState
  event_flags : EventFlags
deriving DecidableEq, Repr

/-- `parse_relative_y`: subtract the current window's top offset — queried
fresh from the screen buffer, here supplied as `window_top` — from the
absolute screen-buffer row.  A failing query propagates as an error. -/
def parse_relative_y (window_top : Except IoErr Int) (y : Int) : Except IoErr Int :=
  match window_top with
  | .error e => .error e
  | .ok top => .ok (y - top)

/-- `parse_mouse_event_record`: convert the row with `parse_relative_y`
(propagating a failing screen-buffer query), keep the column, and translate
the record by flags and button state; double clicks and horizontal wheel
movement produce no event. -/
def parse_mouse_event_record (window_top : Except IoErr Int) (event : MouseEventRecord) :
    Except IoErr (Option MouseEvent) :=
  let xpos := u16ofInt event.x
  match parse_relative_y window_top event.y with
  | .error e => .error e
  | .ok rel =>
    let ypos := u16ofInt rel
    match event.event_flags with
    | .pressOrRelease =>
      match event.button_state with
      | .release => .ok (some (.release xpos ypos))
      | .fromLeft1stButtonPressed => .ok (some (.press .left xpos ypos))
      | .rightmostButtonPressed => .ok (some (.press .right xpos ypos))
      | .fromLeft2ndButtonPressed => .ok (some (.press .middle xpos ypos))
      | _ => .ok none
    | .mouseMoved =>
      if event.button_state != ButtonState.release then .ok (some (.hold xpos ypos))
      else .ok none
    | .mouseWheeled =>
      if event.button_state != ButtonState.negative then
        .ok (some (.press .wheelUp xpos ypos))
      else .ok (some (.press .wheelDown xpos ypos))
    | .doubleClick => .ok none
    | .mouseHwheeled => .ok none

/-- `handle_mouse_event`: wrap a decoded mouse event; any other outcome of
`parse_mouse_event_record` (including an error) becomes `Ok(None)`. -/
def handle_mouse_event (window_top : Except IoErr Int) (mouse_event : MouseEventRecord) :
    Except IoErr (Option Event) :=
  match parse_mouse_event_record window_top mouse_event with
  | .ok (some ev) => .ok (some (.mouse ev))
  | _ => .ok none

/-- Column coordinate of a decoded mouse event. -/
def MouseEvent.col : MouseEvent → Nat
  | .press _ c _ => c
  | .release c _ => c
  | .hold c _ => c

/-- Row coordinate of a decoded mouse event. -/
def MouseEvent.row : MouseEvent → Nat
  | .press _ _ r => r
  | .release _ r => r
  | .hold _ r => r

/-! ## Console-mode save/restore (src/event/sys/windows.rs) -/

def ENABLE_MOUSE_MODE : Nat := 0x0010 ||| 0x0080 ||| 0x0008

/-- State relevant to mouse-capture toggling: the process-wide
`ORIGINAL_CONSOLE_MODE` cell and the current console mode of the input
handle (the value `ConsoleMode::mode()` reports / `set_mode` writes). -/
structure ConsoleState where
  original_console_mode : Option Nat
  console_mode : Nat
deriving DecidableEq, Repr

/-- `init_original_console_mode`: store the given mode only if the cell is
still unset; a later call leaves the stored value unchanged. -/
def init_original_console_mode (saved : Option Nat) (original_mode : Nat) : Option Nat :=
  match saved with
  | none => some original_mode
  | some m => some m

/-- `enable_mouse_capture`: read the current console mode, hand it to
`init_original_console_mode`, then set the capture mode bits. -/
def enable_mouse_capture (s : ConsoleState) : ConsoleState :=
  { original_console_mode := init_original_console_mode s.original_console_mode s.console_mode,
    console_mode := ENABLE_MOUSE_MODE }

/-- `disable_mouse_capture`: set the console mode back to the stored
original mode; with nothing stored the `expect` panics (modelled as `none`). -/
def disable_mouse_capture (s : ConsoleState) : Option ConsoleState :=
  match s.original_console_mode with
  | some m => some { s with console_mode := m }
  | none => none

/-! ## Legacy asynchronous reader (crossterm_input/src/input/mod.rs) -/

/-- The `loop` of `<AsyncReader as Read>::read`: `space` is the room left in
the caller's buffer, `acc` the bytes written so far.  The buffer-full check
comes first; then `try_recv` either yields a byte, yields a queued error
(returned immediately, discarding `acc`), or finds the channel empty. -/
def asyncReadLoop (queue : List (Except IoErr Nat)) (space : Nat) (acc : List Nat) :
    Except IoErr (List Nat) :=
  match space, queue with
  | 0, _ => .ok acc
  | _ + 1, [] => .ok acc
  | sp + 1, .ok value :: rest => asyncReadLoop rest sp (acc ++ [value])
  | _ + 1, .error e :: _ => .error e

/-- `<AsyncReader as Read>::read` over a queue of received items and a buffer
of length `bufLen`; the result carries the bytes written to `buf[0..n]`. -/
def asyncReaderRead (queue : List (Except IoErr Nat)) (bufLen : Nat) :
    Except IoErr (List Nat) :=
  asyncReadLoop queue bufLen []

/-- Longest run of successfully received bytes at the front of the queue. -/
def okLead : List (Except IoErr Nat) → List Nat
  | .ok v :: rest => v :: okLead rest
  | _ => []

/-! ## Claims about the incremental parser -/

/-- Statement of claim C1, instantiated at one index of the chunk: the loop
body at `idx` re-invokes the byte parser on the accumulated buffer with the
flag `idx + 1 < bytes.length || more`, and the three parse outcomes update
the pending buffer and the event queue as described. -/
def AdvanceStepClaim (p : ByteParse) (s : Parser) (bytes : List Nat) (more : Bool)
    (idx : Nat) : Prop :=
  Parser.advanceFrom p s bytes more idx
      = Parser.advanceFrom p
          (Parser.advanceByte p s (bytes.getD idx 0) (decide (idx + 1 < bytes.length) || more))
          bytes more (idx + 1)
    ∧ (∀ ie, p (s.buffer ++ [bytes.getD idx 0]) (decide (idx + 1 < bytes.length) || more)
          = .okSome ie →
        Parser.advanceByte p s (bytes.getD idx 0) (decide (idx + 1 < bytes.length) || more)
          = { buffer := [], internal_events := s.internal_events ++ [ie] })
    ∧ (p (s.buffer ++ [bytes.getD idx 0]) (decide (idx + 1 < bytes.length) || more) = .okNone →
        Parser.advanceByte p s (bytes.getD idx 0) (decide (idx + 1 < bytes.length) || more)
          = { s with buffer := s.buffer ++ [bytes.getD idx 0] })
    ∧ (p (s.buffer ++ [bytes.getD idx 0]) (decide (idx + 1 < bytes.length) || more) = .err →
        Parser.advanceByte p s (bytes.getD idx 0) (decide (idx + 1 < bytes.length) || more)
          = { s with buffer := [] })

/-- Claim C1: `Parser::advance` processes the bytes of a chunk one at a time
in order; for the byte at index `idx` the byte parser is re-invoked on the
accumulated pending buffer with `more_available` true iff
`idx + 1 < new_bytes.len()` or `more` is true; on `Ok(Some(event))` the event
is appended to the back of the event queue and the pending buffer is emptied;
on `Err` the pending buffer is emptied and processing resumes at the next
byte; on `Ok(None)` the pending buffer is kept. -/
theorem advance_step_behavior (p : ByteParse) (s : Parser) (bytes : List Nat)
    (more : Bool) (idx : Nat) (h : idx < bytes.length) :
    AdvanceStepClaim p s bytes more idx := by
  refine ⟨?_, ?_, ?_, ?_⟩
  · conv_lhs => rw [Parser.advanceFrom]
    rw [dif_pos h, List.get_eq_getElem, List.getD_eq_getElem bytes 0 h]
  · intro ie hp
    simp only [Parser.advanceByte]
    rw [hp]
  · intro hp
    simp only [Parser.advanceByte]
    rw [hp]
  · intro hp
    simp only [Parser.advanceByte]
    rw [hp]

/-- Witness for claim C1 at a concrete chunk: two bytes, starting index 0. -/
theorem advance_step_behavior_witness :
    AdvanceStepClaim (fun _ _ => ParseResult.okNone) ⟨[], []⟩ [27, 91] false 0 :=
  advance_step_behavior (fun _ _ => ParseResult.okNone) ⟨[], []⟩ [27, 91] false 0 (by decide)

/-- Claim C2: the pending-byte buffer holds at most one in-progress sequence:
whatever the current state, a processing step that pushes an event to the
output queue leaves the buffer empty, and a step whose byte is rejected as an
invalid sequence leaves the buffer empty, so the buffer never spans a
successfully-emitted event. -/
theorem parser_buffer_never_spans_event (p : ByteParse) (s : Parser) (byte : Nat)
    (m : Bool) :
    ((Parser.advanceByte p s byte m).internal_events ≠ s.internal_events →
      (Parser.advanceByte p s byte m).buffer = [])
    ∧ (p (s.buffer ++ [byte]) m = .err → (Parser.advanceByte p s byte m).buffer = []) := by
  cases hp : p (s.buffer ++ [byte]) m <;>
    simp [Parser.advanceByte, hp]

/-- Witness for claim C2: a byte rejected by the parser empties the buffer. -/
theorem parser_buffer_never_spans_event_witness :
    (Parser.advanceByte (fun _ _ => ParseResult.err) ⟨[5], []⟩ 6 false).buffer = [] :=
  (parser_buffer_never_spans_event (fun _ _ => ParseResult.err) ⟨[5], []⟩ 6 false).2 rfl

/-! ## Claims about the POSIX event source -/

lemma advanceByte_events_append (p : ByteParse) (s : Parser) (byte : Nat) (m : Bool) :
    ∃ t, (Parser.advanceByte p s byte m).internal_events = s.internal_events ++ t := by
  cases hp : p (s.buffer ++ [byte]) m with
  | okSome ie => exact ⟨[ie], by simp [Parser.advanceByte, hp]⟩
  | okNone => exact ⟨[], by simp [Parser.advanceByte, hp]⟩
  | err => exact ⟨[], by simp [Parser.advanceByte, hp]⟩

lemma advanceFrom_events_append (p : ByteParse) (bytes : List Nat) (more : Bool) :
    ∀ fuel idx s, bytes.length ≤ idx + fuel →
      ∃ t, (Parser.advanceFrom p s bytes more idx).internal_events
        = s.internal_events ++ t := by
  intro fuel
  induction fuel with
  | zero =>
    intro idx s h
    rw [Parser.advanceFrom, dif_neg (by omega)]
    exact ⟨[], by simp⟩
  | succ n ih =>
    intro idx s h
    by_cases hlt : idx < bytes.length
    · rw [Parser.advanceFrom, dif_pos hlt]
      obtain ⟨t1, h1⟩ := advanceByte_events_append p s (bytes.get ⟨idx, hlt⟩)
        (decide (idx + 1 < bytes.length) || more)
      obtain ⟨t2, h2⟩ := ih (idx + 1) _ (by omega)
      exact ⟨t1 ++ t2, by rw [h2, h1, List.append_assoc]⟩
    · rw [Parser.advanceFrom, dif_neg hlt]
      exact ⟨[], by simp⟩

/-- Claim C3: with the parser queue already drained, `try_read` enters the
poll loop; a multiplexer wait that reports no readiness events returns
`Ok(None)`; a pass whose token processing falls through returns `Ok(None)`
once the timeout has elapsed; and whenever the timeout has elapsed the pass
returns rather than looping again, so a call with a finite timeout never
blocks indefinitely. -/
theorem try_read_timeout_returns_none (p : ByteParse) (s : SourceState) (it : Iteration)
    (rest : List Iteration) (trace : List Iteration) :
    (s.parser.internal_events = [] → tryRead p s trace = tryReadLoop p s trace)
    ∧ (it.pollResult = .ok [] → tryReadLoop p s (it :: rest) = .ret (.ok none) s)
    ∧ (∀ toks s', it.pollResult = .ok toks →
        processTokens p it s toks = .fallthrough s' → it.elapsed = true →
        tryReadLoop p s (it :: rest) = .ret (.ok none) s')
    ∧ (it.elapsed = true → ∃ r s', tryReadLoop p s (it :: rest) = .ret r s') := by
  refine ⟨?_, ?_, ?_, ?_⟩
  · intro hq
    simp [tryRead, Parser.next, hq]
  · intro hp
    simp only [tryReadLoop]
    rw [hp]
  · intro toks s' hp hpt he
    simp only [tryReadLoop]
    rw [hp]
    cases toks with
    | nil =>
      simp only [processTokens] at hpt
      cases hpt
      rfl
    | cons t ts =>
      dsimp only
      rw [hpt, he]
      simp
  · intro he
    simp only [tryReadLoop]
    cases hp : it.pollResult with
    | error e => exact ⟨.error e, s, rfl⟩
    | ok toks =>
      cases toks with
      | nil => exact ⟨.ok none, s, rfl⟩
      | cons t ts =>
        cases hpt : processTokens p it s (t :: ts) with
        | ret r s' => exact ⟨r, s', by dsimp only; rw [hpt]⟩
        | fallthrough s' => exact ⟨.ok none, s', by dsimp only; rw [hpt, he]; simp⟩

/-- Witness for claim C3: an empty readiness set makes the loop return
`Ok(None)`, and an elapsed pass returns. -/
theorem try_read_timeout_returns_none_witness :
    tryReadLoop (fun _ _ => ParseResult.okNone) ⟨⟨[], []⟩, []⟩
        [⟨.ok [], .ok [], .ok false, 0, .ok (0, 0), true⟩]
      = .ret (.ok none) ⟨⟨[], []⟩, []⟩
    ∧ ∃ r s', tryReadLoop (fun _ _ => ParseResult.okNone) ⟨⟨[], []⟩, []⟩
        [⟨.ok [], .ok [], .ok false, 0, .ok (0, 0), true⟩] = .ret r s' :=
  ⟨(try_read_timeout_returns_none (fun _ _ => ParseResult.okNone) ⟨⟨[], []⟩, []⟩
      ⟨.ok [], .ok [], .ok false, 0, .ok (0, 0), true⟩ [] []).2.1 rfl,
   (try_read_timeout_returns_none (fun _ _ => ParseResult.okNone) ⟨⟨[], []⟩, []⟩
      ⟨.ok [], .ok [], .ok false, 0, .ok (0, 0), true⟩ [] []).2.2.2 rfl⟩

/-- Claim C4: `wake` writes exactly the single byte `0x57` to the self-pipe
(never more); and when `try_read` services readiness on the wake descriptor
it consumes a single byte from the pipe and immediately returns `Ok(None)`,
leaving the parser untouched — no input event is produced. -/
theorem wake_single_byte (pipe : List Nat) (p : ByteParse) (it : Iteration)
    (s : SourceState) (restToks : List Tok) (b : Nat) (tail : List Nat) :
    (wake pipe = pipe ++ [0x57] ∧ (wake pipe).length = pipe.length + 1)
    ∧ (s.wakePipe = b :: tail →
        processTokens p it s (.wake :: restToks)
          = .ret (.ok none) { parser := s.parser, wakePipe := tail }) := by
  refine ⟨⟨rfl, by simp [wake]⟩, ?_⟩
  intro hw
  simp [processTokens, hw]

/-- Witness for claim C4 on a pipe holding exactly one wake token. -/
theorem wake_single_byte_witness :
    processTokens (fun _ _ => ParseResult.okNone)
        ⟨.ok [Tok.wake], .ok [], .ok false, 0, .ok (0, 0), false⟩
        ⟨⟨[], []⟩, [0x57]⟩ [Tok.wake]
      = .ret (.ok none) { parser := ⟨[], []⟩, wakePipe := [] } :=
  (wake_single_byte [] (fun _ _ => ParseResult.okNone)
      ⟨.ok [Tok.wake], .ok [], .ok false, 0, .ok (0, 0), false⟩
      ⟨⟨[], []⟩, [0x57]⟩ [] 0x57 []).2 rfl

/-- Claim C5: decoded events are delivered FIFO: `Parser::next` returns the
oldest queued event, returns `None` without blocking on an empty queue,
`Parser::advance` only appends newly decoded events behind the existing
queue (so events come out in the order their bytes were consumed), and a
resize signal serviced first in a pass is returned before any further tty
bytes are read into the parser. -/
theorem fifo_event_delivery (p : ByteParse) (buf : List Nat) (ie : InternalEvent)
    (q : List InternalEvent) (s : Parser) (bytes : List Nat) (more : Bool)
    (src : SourceState) (it : Iteration) (restToks : List Tok) (k w h : Nat) :
    Parser.next ⟨buf, []⟩ = (none, ⟨buf, []⟩)
    ∧ Parser.next ⟨buf, ie :: q⟩ = (some ie, ⟨buf, q⟩)
    ∧ (∃ t, (Parser.advance p s bytes more).internal_events = s.internal_events ++ t)
    ∧ (it.pendingSigwinch = k + 1 → it.termSize = .ok (w, h) →
        processTokens p it src (.signal :: restToks)
          = .ret (.ok (some (.event (.resize w h)))) src) := by
  refine ⟨rfl, rfl, ?_, ?_⟩
  · exact advanceFrom_events_append p bytes more bytes.length 0 s (by omega)
  · intro hs ht
    simp [processTokens, hs, ht]

/-- Witness for claim C5: a serviced resize signal is returned with the
parser state untouched. -/
theorem fifo_event_delivery_witness :
    processTokens (fun _ _ => ParseResult.okNone)
        ⟨.ok [Tok.signal], .ok [], .ok false, 1, .ok (80, 24), false⟩
        ⟨⟨[], []⟩, []⟩ [Tok.signal]
      = .ret (.ok (some (.event (.resize 80 24)))) ⟨⟨[], []⟩, []⟩ :=
  (fifo_event_delivery (fun _ _ => ParseResult.okNone) [] (.event (.resize 0 0)) []
      ⟨[], []⟩ [] false ⟨⟨[], []⟩, []⟩
      ⟨.ok [Tok.signal], .ok [], .ok false, 1, .ok (80, 24), false⟩ [] 0 80 24).2.2.2 rfl rfl

/-- Claim C6: a `try_read` pass that observes readiness on the resize-signal
descriptor first, with a pending SIGWINCH, returns exactly one
`InternalEvent::Event(Event::Resize(w, h))` built from the terminal size
queried at that moment, with the byte parser bypassed entirely (the source
state is unchanged). -/
theorem resize_fresh_size (p : ByteParse) (s : SourceState) (it : Iteration)
    (restToks : List Tok) (trace : List Iteration) (k w h : Nat) :
    it.pollResult = .ok (Tok.signal :: restToks) → it.pendingSigwinch = k + 1 →
    it.termSize = .ok (w, h) →
    tryReadLoop p s (it :: trace)
      = .ret (.ok (some (.event (.resize w h)))) s := by
  intro hp hs ht
  simp only [tryReadLoop]
  rw [hp]
  simp [processTokens, hs, ht]

/-- Witness for claim C6 at a concrete terminal size. -/
theorem resize_fresh_size_witness :
    tryReadLoop (fun _ _ => ParseResult.okNone) ⟨⟨[], []⟩, []⟩
        [⟨.ok [Tok.signal], .ok [], .ok false, 1, .ok (120, 40), false⟩]
      = .ret (.ok (some (.event (.resize 120 40)))) ⟨⟨[], []⟩, []⟩ :=
  resize_fresh_size (fun _ _ => ParseResult.okNone) ⟨⟨[], []⟩, []⟩
    ⟨.ok [Tok.signal], .ok [], .ok false, 1, .ok (120, 40), false⟩ [] [] 0 120 40 rfl rfl rfl

/-! ## Claims about the Windows console-record decoder -/

/-- Claim C7: every mouse event emitted by `parse_mouse_event_record` carries
as row the record's absolute screen-buffer row minus the window's top offset
(reinterpreted as `u16`), applied exactly once and only to the row, while the
column is passed through unchanged; in the in-range case the subtraction is
exact. -/
theorem mouse_row_window_relative (top : Int) (ev : MouseEventRecord) (m : MouseEvent)
    (hm : parse_mouse_event_record (.ok top) ev = .ok (some m)) :
    (m.row = u16ofInt (ev.y - top) ∧ m.col = u16ofInt ev.x)
    ∧ (0 ≤ ev.y - top → ev.y - top < 65536 → (m.row : Int) = ev.y - top)
    ∧ (0 ≤ ev.x → ev.x < 65536 → (m.col : Int) = ev.x) := by
  have h1 : m.row = u16ofInt (ev.y - top) ∧ m.col = u16ofInt ev.x := by
    simp only [parse_mouse_event_record, parse_relative_y] at hm
    split at hm <;> try split at hm
    all_goals cases hm
    all_goals exact ⟨rfl, rfl⟩
  refine ⟨h1, ?_, ?_⟩
  · intro hy0 hy1
    rw [h1.1]
    unfold u16ofInt
    rw [Int.emod_eq_of_lt hy0 hy1]
    exact Int.toNat_of_nonneg hy0
  · intro hx0 hx1
    rw [h1.2]
    unfold u16ofInt
    rw [Int.emod_eq_of_lt hx0 hx1]
    exact Int.toNat_of_nonneg hx0

/-- Witness for claim C7: a left click at absolute row 7 with window top 4
is emitted at window-relative row 3. -/
theorem mouse_row_window_relative_witness :
    ((MouseEvent.press MouseButton.left 5 3).row = u16ofInt ((7 : Int) - 4)
      ∧ (MouseEvent.press MouseButton.left 5 3).col = u16ofInt (5 : Int))
    ∧ ((0 : Int) ≤ (7 : Int) - 4 → (7 : Int) - 4 < 65536 →
        ((MouseEvent.press MouseButton.left 5 3).row : Int) = (7 : Int) - 4)
    ∧ ((0 : Int) ≤ (5 : Int) → (5 : Int) < 65536 →
        ((MouseEvent.press MouseButton.left 5 3).col : Int) = (5 : Int)) :=
  mouse_row_window_relative 4 ⟨5, 7, .fromLeft1stButtonPressed, .pressOrRelease⟩
    (MouseEvent.press MouseButton.left 5 3) rfl

/-- Claim C8: the saved original console mode is written at most once: the
first `enable_mouse_capture` stores the then-current console mode, any number
of later enables leave the stored value unchanged while re-applying the
capture mode bits, and `disable_mouse_capture` — given a prior enable —
restores the first-stored mode. -/
theorem console_mode_saved_once (s : ConsoleState) (n : Nat)
    (h : s.original_console_mode = none) :
    (enable_mouse_capture s).original_console_mode = some s.console_mode
    ∧ (enable_mouse_capture^[n] (enable_mouse_capture s)).original_console_mode
        = some s.console_mode
    ∧ (enable_mouse_capture^[n] (enable_mouse_capture s)).console_mode = ENABLE_MOUSE_MODE
    ∧ disable_mouse_capture (enable_mouse_capture^[n] (enable_mouse_capture s))
        = some { original_console_mode := some s.console_mode,
                 console_mode := s.console_mode } := by
  have key : ∀ m : Nat, enable_mouse_capture^[m] (enable_mouse_capture s)
      = { original_console_mode := some s.console_mode,
          console_mode := ENABLE_MOUSE_MODE } := by
    intro m
    induction m with
    | zero => simp [enable_mouse_capture, init_original_console_mode, h]
    | succ k ihk =>
      rw [Function.iterate_succ_apply', ihk]
      simp [enable_mouse_capture, init_original_console_mode]
  refine ⟨?_, ?_, ?_, ?_⟩
  · simp [enable_mouse_capture, init_original_console_mode, h]
  · rw [key n]
  · rw [key n]
  · rw [key n]
    simp [disable_mouse_capture]

/-- Witness for claim C8 with original mode 3 and two redundant re-enables. -/
theorem console_mode_saved_once_witness :
    (enable_mouse_capture ⟨none, 3⟩).original_console_mode = some 3
    ∧ (enable_mouse_capture^[2] (enable_mouse_capture ⟨none, 3⟩)).original_console_mode
        = some 3
    ∧ (enable_mouse_capture^[2] (enable_mouse_capture ⟨none, 3⟩)).console_mode
        = ENABLE_MOUSE_MODE
    ∧ disable_mouse_capture (enable_mouse_capture^[2] (enable_mouse_capture ⟨none, 3⟩))
        = some ⟨some 3, 3⟩ :=
  console_mode_saved_once ⟨none, 3⟩ 2 rfl

/-- Claim C9: unsupported record shapes produce no event rather than an
error: key records that are not key-down, modifier-only key presses (Shift,
Control or Alt alone), double-click mouse records and horizontal-wheel mouse
records all decode to `Ok(None)`/`None`, and the record handlers never
return an `Err`. -/
theorem unsupported_records_silently_dropped (rec : KeyEventRecord)
    (top : Except IoErr Int) (t : Int) (mev : MouseEventRecord) :
    (rec.key_down = false → handle_key_event rec = .ok none)
    ∧ (rec.virtual_key_code = VK_SHIFT ∨ rec.virtual_key_code = VK_CONTROL
        ∨ rec.virtual_key_code = VK_MENU → handle_key_event rec = .ok none)
    ∧ (mev.event_flags = .doubleClick ∨ mev.event_flags = .mouseHwheeled →
        parse_mouse_event_record (.ok t) mev = .ok none
        ∧ handle_mouse_event top mev = .ok none)
    ∧ (∃ o, handle_key_event rec = .ok o)
    ∧ (∃ o, handle_mouse_event top mev = .ok o) := by
  refine ⟨?_, ?_, ?_, ?_, ?_⟩
  · intro hk
    simp [handle_key_event, hk]
  · intro hv
    have hnone : parse_key_event_record rec = none := by
      rcases hv with hv | hv | hv <;> simp [parse_key_event_record, hv]
    by_cases hk : rec.key_down <;> simp [handle_key_event, hk, hnone]
  · intro hf
    constructor
    · rcases hf with hf | hf <;>
        simp [parse_mouse_event_record, parse_relative_y, hf]
    · cases top with
      | error e => simp [handle_mouse_event, parse_mouse_event_record, parse_relative_y]
      | ok tt =>
        rcases hf with hf | hf <;>
          simp [handle_mouse_event, parse_mouse_event_record, parse_relative_y, hf]
  · by_cases hk : rec.key_down
    · cases hpk : parse_key_event_record rec with
      | some ev => exact ⟨some (.key ev), by simp [handle_key_event, hk, hpk]⟩
      | none => exact ⟨none, by simp [handle_key_event, hk, hpk]⟩
    · exact ⟨none, by simp [handle_key_event, hk]⟩
  · cases hpm : parse_mouse_event_record top mev with
    | error e => exact ⟨none, by simp [handle_mouse_event, hpm]⟩
    | ok o =>
      cases o with
      | some ev => exact ⟨some (.mouse ev), by simp [handle_mouse_event, hpm]⟩
      | none => exact ⟨none, by simp [handle_mouse_event, hpm]⟩

/-- Witness for claim C9: a key-up record, a bare Shift press and a
double-click record are all dropped without error. -/
theorem unsupported_records_silently_dropped_witness :
    handle_key_event ⟨false, 65, 0, 65⟩ = .ok none
    ∧ handle_key_event ⟨true, 0x10, 0, 0⟩ = .ok none
    ∧ (parse_mouse_event_record (.ok 0) ⟨1, 2, .release, .doubleClick⟩ = .ok none
        ∧ handle_mouse_event (.ok 0) ⟨1, 2, .release, .doubleClick⟩ = .ok none) :=
  ⟨(unsupported_records_silently_dropped ⟨false, 65, 0, 65⟩ (.ok 0) 0
      ⟨1, 2, .release, .doubleClick⟩).1 rfl,
   (unsupported_records_silently_dropped ⟨true, 0x10, 0, 0⟩ (.ok 0) 0
      ⟨1, 2, .release, .doubleClick⟩).2.1 (Or.inl rfl),
   (unsupported_records_silently_dropped ⟨true, 0x10, 0, 0⟩ (.ok 0) 0
      ⟨1, 2, .release, .doubleClick⟩).2.2.1 (Or.inl rfl)⟩

/-! ## Claims about the asynchronous reader -/

lemma asyncReadLoop_append (queue : List (Except IoErr Nat)) :
    ∀ space acc, asyncReadLoop queue space acc
      = (asyncReadLoop queue space []).map (fun l => acc ++ l) := by
  induction queue with
  | nil =>
    intro space acc
    cases space <;> simp [asyncReadLoop, Except.map]
  | cons x rest ih =>
    intro space acc
    cases space with
    | zero => simp [asyncReadLoop, Except.map]
    | succ sp =>
      cases x with
      | error e => simp [asyncReadLoop, Except.map]
      | ok v =>
        simp only [asyncReadLoop]
        rw [ih sp (acc ++ [v]), ih sp ([] ++ [v])]
        cases hl : asyncReadLoop rest sp [] <;> simp [Except.map]

lemma asyncReadLoop_ok (queue : List (Except IoErr Nat)) :
    ∀ space bytes, asyncReadLoop queue space [] = .ok bytes →
      bytes = (okLead queue).take space ∧ bytes.length ≤ space := by
  induction queue with
  | nil =>
    intro space bytes h
    cases space <;> (simp [asyncReadLoop] at h; subst h; simp [okLead])
  | cons x rest ih =>
    intro space bytes h
    cases space with
    | zero =>
      simp [asyncReadLoop] at h
      subst h
      simp
    | succ sp =>
      cases x with
      | error e => simp [asyncReadLoop] at h
      | ok v =>
        simp only [asyncReadLoop] at h
        rw [asyncReadLoop_append rest sp ([] ++ [v])] at h
        cases hl : asyncReadLoop rest sp [] with
        | error e =>
          rw [hl] at h
          simp [Except.map] at h
        | ok tail =>
          rw [hl] at h
          simp [Except.map] at h
          obtain ⟨htail, hlen⟩ := ih sp tail hl
          subst h
          constructor
          · simp [okLead, htail]
          · simp
            omega

lemma asyncReadLoop_error (e : IoErr) :
    ∀ vs : List Nat, ∀ rest space acc, vs.length < space →
      asyncReadLoop (List.map Except.ok vs ++ .error e :: rest) space acc = .error e := by
  intro vs
  induction vs with
  | nil =>
    intro rest space acc h
    cases space with
    | zero => omega
    | succ sp => simp [asyncReadLoop]
  | cons v vt ih =>
    intro rest space acc h
    cases space with
    | zero => omega
    | succ sp =>
      simp only [List.map, List.cons_append, asyncReadLoop]
      exact ih rest sp (acc ++ [v]) (by simp at h; omega)

/-- Claim C10: `AsyncReader::read` writes at most `buf.len()` bytes, copies
queued bytes in arrival order, stops on an empty queue or a full buffer
(returning `Ok(0)` on an initially empty queue, never blocking), and
returns the queued error immediately — discarding the bytes already
copied — when the error is reached before the buffer fills. -/
theorem async_reader_read_spec (queue : List (Except IoErr Nat)) (bufLen : Nat) :
    (∀ bytes, asyncReaderRead queue bufLen = .ok bytes →
      bytes.length ≤ bufLen ∧ bytes = (okLead queue).take bufLen)
    ∧ asyncReaderRead [] bufLen = .ok []
    ∧ (∀ e rest, 0 < bufLen →
        asyncReaderRead (.error e :: rest) bufLen = .error e)
    ∧ (∀ vs e rest, vs.length < bufLen →
        asyncReaderRead (List.map Except.ok vs ++ .error e :: rest) bufLen = .error e) := by
  refine ⟨?_, ?_, ?_, ?_⟩
  · intro bytes h
    obtain ⟨h1, h2⟩ := asyncReadLoop_ok queue bufLen bytes h
    exact ⟨h2, h1⟩
  · cases bufLen <;> simp [asyncReaderRead, asyncReadLoop]
  · intro e rest hb
    cases bufLen with
    | zero => omega
    | succ n => simp [asyncReaderRead, asyncReadLoop]
  · intro vs e rest hlen
    exact asyncReadLoop_error e vs rest bufLen [] hlen

/-- Witness for claim C10: two queued bytes come out in order, and a queued
error behind one byte is returned as the error itself. -/
theorem async_reader_read_spec_witness :
    (([3, 7] : List Nat).length ≤ 5
      ∧ ([3, 7] : List Nat) = (okLead [Except.ok 3, Except.ok 7]).take 5)
    ∧ asyncReaderRead [Except.ok 2, Except.error 9] 5 = .error 9 :=
  ⟨(async_reader_read_spec [Except.ok 3, Except.ok 7] 5).1 [3, 7] rfl,
   (async_reader_read_spec [Except.ok 2, Except.error 9] 5).2.2.2 [2] 9 [] (by decide)⟩
